import Mathlib

set_option maxRecDepth 1000000

/-!
Shallow embedding of the rstar tar-reader crate (src/lib.rs, src/utils.rs,
src/constants.rs).  Bytes are modelled as `Nat` values below 256, a tar block
as a `List Nat`, Rust `u32`/`u64`/`usize` octal parsing as `Nat` accumulation
with explicit overflow bounds, and `i32` parsing as `Int` accumulation.
-/

namespace RsTar

/-- Size of a single tar block (constants.rs `BLOCK_SIZE`). -/
def BLOCK_SIZE : Nat := 512

/-- Field slice `NAME_RANGE = 0..100`. -/
def nameField (block : List Nat) : List Nat := block.take 100

/-- Field slice `MODE_RANGE = 100..108`. -/
def modeField (block : List Nat) : List Nat := (block.drop 100).take 8

/-- Field slice `OWNER_RANGE = 108..116`. -/
def ownerField (block : List Nat) : List Nat := (block.drop 108).take 8

/-- Field slice `GROUP_RANGE = 116..124`. -/
def groupField (block : List Nat) : List Nat := (block.drop 116).take 8

/-- Field slice `SIZE_RANGE = 124..136`. -/
def sizeField (block : List Nat) : List Nat := (block.drop 124).take 12

/-- Field slice `MTIME_RANGE = 136..148`. -/
def mtimeField (block : List Nat) : List Nat := (block.drop 136).take 12

/-- Field slice `CHECKSUM_RANGE = 148..156`. -/
def checksumField (block : List Nat) : List Nat := (block.drop 148).take 8

/-- Field slice `LINK_NAME_RANGE = 157..257`. -/
def linkNameField (block : List Nat) : List Nat := (block.drop 157).take 100

/-- The error kinds of Rust `core::num::ParseIntError`. -/
inductive ParseIntError where
  | Empty
  | InvalidDigit
  | PosOverflow
  | NegOverflow
deriving DecidableEq, Repr

/-- An octal ASCII digit byte and its value, `none` otherwise. -/
def octDigit? (b : Nat) : Option Nat :=
  if 48 ≤ b ∧ b < 56 then some (b - 48) else none

/-- Unsigned octal accumulation of `from_str_radix`, with overflow bound. -/
def accumOctU (maxVal : Nat) : Nat → List Nat → Except ParseIntError Nat
  | acc, [] => .ok acc
  | acc, b :: rest =>
    match octDigit? b with
    | none => .error .InvalidDigit
    | some d =>
      if maxVal < acc * 8 + d then .error .PosOverflow
      else accumOctU maxVal (acc * 8 + d) rest

/-- Signed-positive octal accumulation of `from_str_radix` over `Int`. -/
def accumOctPos (maxVal : Int) : Int → List Nat → Except ParseIntError Int
  | acc, [] => .ok acc
  | acc, b :: rest =>
    match octDigit? b with
    | none => .error .InvalidDigit
    | some d =>
      if maxVal < acc * 8 + (d : Int) then .error .PosOverflow
      else accumOctPos maxVal (acc * 8 + (d : Int)) rest

/-- Signed-negative octal accumulation of `from_str_radix` over `Int`. -/
def accumOctNeg (minVal : Int) : Int → List Nat → Except ParseIntError Int
  | acc, [] => .ok acc
  | acc, b :: rest =>
    match octDigit? b with
    | none => .error .InvalidDigit
    | some d =>
      if acc * 8 - (d : Int) < minVal then .error .NegOverflow
      else accumOctNeg minVal (acc * 8 - (d : Int)) rest

/-- Rust `uN::from_str_radix(s, 8)`: empty input is `Empty`; a leading plus
sign is allowed when followed by digits; a leading minus sign on an unsigned
type is an invalid digit. -/
def fromStrRadixOctU (maxVal : Nat) : List Nat → Except ParseIntError Nat
  | [] => .error .Empty
  | b :: rest =>
    if b = 43 then
      if rest = [] then .error .InvalidDigit
      else accumOctU maxVal 0 rest
    else accumOctU maxVal 0 (b :: rest)

/-- Rust `i32::from_str_radix(s, 8)`: empty input is `Empty`; a leading plus
or minus sign is allowed when followed by digits. -/
def fromStrRadixOctI (minVal maxVal : Int) : List Nat → Except ParseIntError Int
  | [] => .error .Empty
  | b :: rest =>
    if b = 43 ∨ b = 45 then
      if rest = [] then .error .InvalidDigit
      else if b = 45 then accumOctNeg minVal 0 rest
      else accumOctPos maxVal 0 rest
    else accumOctPos maxVal 0 (b :: rest)

/-- UTF-8 validity as a byte-at-a-time state machine: the first argument
lists the admissible half-open ranges of the pending continuation bytes.
On a lead byte it pushes the continuation constraints dictated by the
UTF-8 table used by Rust `str::from_utf8` (rejecting overlong forms,
surrogates, and values above U+10FFFF). -/
def utf8ValidFrom : List (Nat × Nat) → List Nat → Bool
  | [], [] => true
  | _ :: _, [] => false
  | (lo, hi) :: es, b :: rest =>
    if lo ≤ b && b < hi then utf8ValidFrom es rest else false
  | [], b :: rest =>
    if b < 128 then utf8ValidFrom [] rest
    else if 194 ≤ b && b ≤ 223 then utf8ValidFrom [(128, 192)] rest
    else if b = 224 then utf8ValidFrom [(160, 192), (128, 192)] rest
    else if 225 ≤ b && b ≤ 236 then utf8ValidFrom [(128, 192), (128, 192)] rest
    else if b = 237 then utf8ValidFrom [(128, 160), (128, 192)] rest
    else if 238 ≤ b && b ≤ 239 then utf8ValidFrom [(128, 192), (128, 192)] rest
    else if b = 240 then utf8ValidFrom [(144, 192), (128, 192), (128, 192)] rest
    else if 241 ≤ b && b ≤ 243 then
      utf8ValidFrom [(128, 192), (128, 192), (128, 192)] rest
    else if b = 244 then utf8ValidFrom [(128, 144), (128, 192), (128, 192)] rest
    else false

/-- Validity of a byte sequence as UTF-8, as checked by Rust
`str::from_utf8`. -/
def utf8Valid (contents : List Nat) : Bool := utf8ValidFrom [] contents

/-- utils.rs `trimmed_str`: the prefix before the first NUL, decoded as text.
`none` on an empty field, a field starting with NUL, a prefix that is not
valid UTF-8, or a field with no NUL at all. -/
def trimmed_str (contents : List Nat) : Option (List Nat) :=
  if contents.isEmpty then none
  else
    match contents.findIdx? (· == 0) with
    | some 0 => none
    | some pos =>
      if utf8Valid (contents.take pos) then some (contents.take pos) else none
    | none => none

/-- utils.rs `trimmed_osstr`: the raw byte prefix before the first NUL, with
no text-validity check.  `none` on an empty field, a field starting with NUL,
or a field with no NUL at all. -/
def trimmed_osstr (contents : List Nat) : Option (List Nat) :=
  if contents.isEmpty then none
  else
    match contents.findIdx? (· == 0) with
    | some pos => if pos ≠ 0 then some (contents.take pos) else none
    | none => none

/-- Largest `u32` value. -/
def U32_MAX : Nat := 2 ^ 32 - 1

/-- Largest `u64` value. -/
def U64_MAX : Nat := 2 ^ 64 - 1

/-- Largest `usize` value (64-bit target). -/
def USIZE_MAX : Nat := 2 ^ 64 - 1

/-- Smallest `i32` value. -/
def I32_MIN : Int := -(2 ^ 31)

/-- Largest `i32` value. -/
def I32_MAX : Int := 2 ^ 31 - 1

/-- utils.rs `parse_octal` at an unsigned integer type with bound `maxVal`:
`from_str_radix(trimmed_str(bytes).unwrap_or(""), 8)`. -/
def parse_octal (maxVal : Nat) (size : List Nat) : Except ParseIntError Nat :=
  fromStrRadixOctU maxVal ((trimmed_str size).getD [])

/-- utils.rs `parse_octal` at type `i32` (used for the checksum field). -/
def parse_octal_i32 (size : List Nat) : Except ParseIntError Int :=
  fromStrRadixOctI I32_MIN I32_MAX ((trimmed_str size).getD [])

/-- utils.rs `parse_size`: `parse_octal` at type `usize`. -/
def parse_size (size : List Nat) : Except ParseIntError Nat :=
  parse_octal USIZE_MAX size

/-- The unsigned interpretation of a byte (`u8` widened to `i32`). -/
def unsignedInterp (b : Nat) : Int := (b : Int)

/-- The signed interpretation of a byte (`u8` reinterpreted as `i8`, widened
to `i32`). -/
def signedInterp (b : Nat) : Int :=
  if b < 128 then (b : Int) else (b : Int) - 256

/-- utils.rs `compute_checksum`: sum of all block bytes under `interp`, with
the checksum bytes removed from the sum and replaced by 8 ASCII spaces. -/
def compute_checksum (interp : Nat → Int) (block : List Nat) : Int :=
  (block.map interp).sum - ((checksumField block).map interp).sum + 32 * 8

/-- lib.rs `LinkType`. -/
inductive LinkType where
  | Normal
  | Hard
  | Symbolic
  | Other (c : Nat)
deriving DecidableEq, Repr

/-- lib.rs `impl From<u8> for LinkType`. -/
def LinkType.fromByte (b : Nat) : LinkType :=
  if b = 0 ∨ b = 48 then .Normal
  else if b = 49 then .Hard
  else if b = 50 then .Symbolic
  else .Other b

/-- lib.rs `TarError`.  The `ParseError` variant carries the
`ParseIntError`; `IOError` carries no payload in this pure model. -/
inductive TarError where
  | CheckSum
  | EncodingError
  | EmptyName
  | ParseError (e : ParseIntError)
  | IOError
  | FileEnd
deriving DecidableEq, Repr

/-- lib.rs `TarHeader`.  Borrowed `OsStr` fields are byte lists. -/
structure TarHeader where
  name : List Nat
  mode : Nat
  owner : Nat
  group : Nat
  size : Nat
  mtime : Nat
  link : LinkType
  link_name : Option (List Nat)
deriving DecidableEq, Repr

namespace TarHeader

/-- lib.rs `TarHeader::validate_checksum`: parse the checksum field as octal
`i32`; on failure return `false`; otherwise accept if the value matches the
computed checksum under the unsigned or the signed byte interpretation. -/
def validate_checksum (block : List Nat) : Bool :=
  match parse_octal_i32 (checksumField block) with
  | .error _ => false
  | .ok checksum =>
    if checksum = compute_checksum unsignedInterp block then true
    else checksum = compute_checksum signedInterp block

/-- lib.rs `TarHeader::from_v7_header`: decode each field in struct-literal
order, with no checksum validation. -/
def from_v7_header (block : List Nat) : Except TarError TarHeader :=
  match trimmed_osstr (nameField block) with
  | none => .error .EmptyName
  | some name =>
    match parse_octal U32_MAX (modeField block) with
    | .error e => .error (.ParseError e)
    | .ok mode =>
      match parse_octal U32_MAX (ownerField block) with
      | .error e => .error (.ParseError e)
      | .ok owner =>
        match parse_octal U32_MAX (groupField block) with
        | .error e => .error (.ParseError e)
        | .ok group =>
          match parse_size (sizeField block) with
          | .error e => .error (.ParseError e)
          | .ok size =>
            match parse_octal U64_MAX (mtimeField block) with
            | .error e => .error (.ParseError e)
            | .ok mtime =>
              .ok {
                name := name
                mode := mode
                owner := owner
                group := group
                size := size
                mtime := mtime
                link := LinkType.fromByte (block.getD 156 0)
                link_name := trimmed_osstr (linkNameField block)
              }

/-- lib.rs `TarHeader::from_block`: validate the checksum, then delegate to
`from_v7_header`. -/
def from_block (block : List Nat) : Except TarError TarHeader :=
  if ¬ validate_checksum block then .error .CheckSum
  else from_v7_header block

/-- lib.rs `TarHeader::block_size`: number of blocks occupied by the
payload. -/
def block_size (h : TarHeader) : Nat :=
  let size := h.size / BLOCK_SIZE
  if h.size % BLOCK_SIZE ≠ 0 then size + 1 else size

end TarHeader

/-- A seekable byte source (the `T: Read + Seek` collaborator), modelled as
an in-memory cursor: reads return everything available up to the requested
length, and seeking moves the position forward. -/
structure ByteStream where
  data : List Nat
  pos : Nat
deriving DecidableEq, Repr

namespace ByteStream

/-- One `read` call of at most `n` bytes: returns the bytes delivered, their
count, and the advanced stream. -/
def readUpTo (s : ByteStream) (n : Nat) : List Nat × Nat × ByteStream :=
  let chunk := (s.data.drop s.pos).take n
  (chunk, chunk.length, { s with pos := s.pos + chunk.length })

/-- `seek(SeekFrom::Current(n))` for forward `n`. -/
def seekBy (s : ByteStream) (n : Nat) : ByteStream :=
  { s with pos := s.pos + n }

end ByteStream

/-- lib.rs `TarReader` state: the byte source and the pending-skip counter
`to_advance` (the scratch block buffer is overwritten before every use and
is not carried). -/
structure ReaderState where
  stream : ByteStream
  to_advance : Nat
deriving DecidableEq, Repr

namespace TarReader

/-- The stream after the deferred-skip seek at the top of `next_entry`:
seek forward by `to_advance` when it is nonzero. -/
def seekedStream (rs : ReaderState) : ByteStream :=
  if rs.to_advance > 0 then rs.stream.seekBy rs.to_advance else rs.stream

/-- lib.rs `TarReader::next_entry`, as a state transformer: seek past any
pending skip, read one block, fail with `FileEnd` on a short read or an
all-zero block, decode via `from_block`, then set the skip counter to the
padded payload span.  The returned state is the reader after the call,
mirroring the in-place mutation of `self`. -/
def next_entry (rs : ReaderState) : Except TarError TarHeader × ReaderState :=
  let s0 := seekedStream rs
  let r := s0.readUpTo BLOCK_SIZE
  let block := r.1
  let cnt := r.2.1
  let s1 := r.2.2
  if cnt ≠ BLOCK_SIZE then (.error .FileEnd, ⟨s1, rs.to_advance⟩)
  else if block.all (· == 0) then (.error .FileEnd, ⟨s1, rs.to_advance⟩)
  else
    match TarHeader.from_block block with
    | .error e => (.error e, ⟨s1, rs.to_advance⟩)
    | .ok header => (.ok header, ⟨s1, header.block_size * BLOCK_SIZE⟩)

/-- `n`-th result of repeatedly calling `next_entry`, threading the reader
state (`iterNext rs 0` is the first call on `rs`). -/
def iterNext (rs : ReaderState) : Nat → Except TarError TarHeader × ReaderState
  | 0 => next_entry rs
  | n + 1 => iterNext (next_entry rs).2 n

end TarReader

/-- The mutable-counter state of a lib.rs `TarEntry`: its remaining payload
`to_read` and the reader's shared skip counter `to_advance` it borrows. -/
structure EntryState where
  to_read : Nat
  to_advance : Nat
deriving DecidableEq, Repr

namespace TarEntry

/-- lib.rs `TarEntry::new`: starts with `to_read = header.size`, borrowing
the reader's current skip counter. -/
def new (header : TarHeader) (to_advance : Nat) : EntryState :=
  ⟨header.size, to_advance⟩

/-- The length `max_len = buf.len().min(self.to_read)` of the one underlying
read issued by `TarEntry::read`. -/
def readRequest (s : EntryState) (bufLen : Nat) : Nat :=
  min bufLen s.to_read

/-- lib.rs `impl Read for TarEntry`: the underlying handle returned `r`
bytes for a request of `readRequest s bufLen`; both counters decrease by
`r`, and `r` is returned. -/
def read (s : EntryState) (r : Nat) : Nat × EntryState :=
  (r, ⟨s.to_read - r, s.to_advance - r⟩)

/-- A sequence of reads: each element of `calls` is a pair of a buffer
length and the count the underlying handle returned for it.  Yields the
total delivered and the final counter state. -/
def runReads : EntryState → List (Nat × Nat) → Nat × EntryState
  | s, [] => (0, s)
  | s, c :: rest =>
    let step := read s c.2
    let tail := runReads step.2 rest
    (c.2 + tail.1, tail.2)

/-- The underlying handle honoured the `Read` contract on every call: it
never returned more than the requested `max_len`. -/
def validReads : EntryState → List (Nat × Nat) → Bool
  | _, [] => true
  | s, c :: rest =>
    decide (c.2 ≤ readRequest s c.1) && validReads (read s c.2).2 rest

end TarEntry

/-! Concrete 512-byte blocks used to instantiate the theorems.  Layout per
constants.rs: name 0..100, mode 100..108, owner 108..116, group 116..124,
size 124..136, mtime 136..148, checksum 148..156, link type 156. -/

/-- A well-formed header block: name `"a"`, all numeric fields `"0"`, link
type `'0'`, checksum field `"1201"` (octal for 641, the block's unsigned
checksum). -/
def blockOk : List Nat :=
  [97] ++ List.replicate 99 0 ++
  [48] ++ List.replicate 7 0 ++
  [48] ++ List.replicate 7 0 ++
  [48] ++ List.replicate 7 0 ++
  [48] ++ List.replicate 11 0 ++
  [48] ++ List.replicate 11 0 ++
  [49, 50, 48, 49] ++ List.replicate 4 0 ++
  [48] ++ List.replicate 355 0

/-- A non-zero block whose checksum field is all NUL, so checksum
validation fails. -/
def blockBad : List Nat := [1] ++ List.replicate 511 0

/-- `blockOk` with its checksum field zeroed out: checksum validation
fails, yet every other field decodes. -/
def blockNoCk : List Nat :=
  [97] ++ List.replicate 99 0 ++
  [48] ++ List.replicate 7 0 ++
  [48] ++ List.replicate 7 0 ++
  [48] ++ List.replicate 7 0 ++
  [48] ++ List.replicate 11 0 ++
  [48] ++ List.replicate 11 0 ++
  List.replicate 8 0 ++
  [48] ++ List.replicate 355 0

/-- A block with a correct checksum (`"1313"`, octal for 715) whose mode
field holds the non-octal byte `'z'`. -/
def blockModeBad : List Nat :=
  [97] ++ List.replicate 99 0 ++
  [122] ++ List.replicate 7 0 ++
  [48] ++ List.replicate 7 0 ++
  [48] ++ List.replicate 7 0 ++
  [48] ++ List.replicate 11 0 ++
  [48] ++ List.replicate 11 0 ++
  [49, 51, 49, 51] ++ List.replicate 4 0 ++
  [48] ++ List.replicate 355 0

/-- A block with a correct checksum (`"1313"`, octal for 715) whose mode,
owner, group and size fields are all the well-formed `"0"` but whose mtime
field holds the non-octal byte `'z'`. -/
def blockMtimeBad : List Nat :=
  [97] ++ List.replicate 99 0 ++
  [48] ++ List.replicate 7 0 ++
  [48] ++ List.replicate 7 0 ++
  [48] ++ List.replicate 7 0 ++
  [48] ++ List.replicate 11 0 ++
  [122] ++ List.replicate 11 0 ++
  [49, 51, 49, 51] ++ List.replicate 4 0 ++
  [48] ++ List.replicate 355 0

/-- A block whose name field starts with the byte `0xFF`, which is not
valid UTF-8, followed by a NUL; every numeric field is `"0"`. -/
def blockNameFF : List Nat :=
  [255] ++ List.replicate 99 0 ++
  [48] ++ List.replicate 7 0 ++
  [48] ++ List.replicate 7 0 ++
  [48] ++ List.replicate 7 0 ++
  [48] ++ List.replicate 11 0 ++
  [48] ++ List.replicate 11 0 ++
  List.replicate 8 0 ++
  [48] ++ List.replicate 355 0

/-- A three-block archive: a valid zero-size entry, a corrupt block, then
another valid entry. -/
def archiveCorruptMiddle : List Nat := blockOk ++ blockBad ++ blockOk

/-- A two-block archive: an all-zero end-of-data marker block followed by a
valid entry. -/
def archiveZeroThenOk : List Nat := List.replicate 512 0 ++ blockOk

/-- `blockOk` with name `"b"`: its unsigned checksum is 642, and its
checksum field holds the octal text `"1202"` followed by NUL padding. -/
def blockOkB : List Nat :=
  [98] ++ List.replicate 99 0 ++
  [48] ++ List.replicate 7 0 ++
  [48] ++ List.replicate 7 0 ++
  [48] ++ List.replicate 7 0 ++
  [48] ++ List.replicate 11 0 ++
  [48] ++ List.replicate 11 0 ++
  [49, 50, 48, 50] ++ List.replicate 4 0 ++
  [48] ++ List.replicate 355 0

/-- Big-endian base-8 digit values of `n`, with `fuel` bounding the
recursion depth (callers supply `fuel ≥ n`). -/
def natToOctDigitsAux : Nat → Nat → List Nat
  | 0, n => [n % 8]
  | fuel + 1, n => if n < 8 then [n] else natToOctDigitsAux fuel (n / 8) ++ [n % 8]

/-- Big-endian base-8 digit values of a natural number. -/
def natToOctDigits (n : Nat) : List Nat := natToOctDigitsAux n n

/-- The value of big-endian base-8 digit values folded onto an
accumulator. -/
def ofOctFrom (acc : Nat) (digs : List Nat) : Nat :=
  digs.foldl (fun a d => a * 8 + d) acc

/-- The ASCII octal text (digit bytes, most significant first) encoding a
natural number. -/
def octalEncode (n : Nat) : List Nat :=
  (natToOctDigits n).map (fun d => d + 48)

instance {ε α : Type} [DecidableEq ε] [DecidableEq α] : DecidableEq (Except ε α)
  | .ok a, .ok b =>
    if h : a = b then .isTrue (by rw [h]) else .isFalse (by intro hh; cases hh; exact h rfl)
  | .error a, .error b =>
    if h : a = b then .isTrue (by rw [h]) else .isFalse (by intro hh; cases hh; exact h rfl)
  | .ok _, .error _ => .isFalse (by intro hh; cases hh)
  | .error _, .ok _ => .isFalse (by intro hh; cases hh)

/-! ## Claim theorems -/

/-- Claim C7: `block_size` is exactly the number of 512-byte blocks needed
to store `size` bytes, i.e. the ceiling of `size / 512`; in particular size
0 gives span 0, size 512 gives span 1, size 513 gives span 2, and size 1024
gives span 2. -/
theorem claim7_block_span :
    (∀ h : TarHeader, h.block_size = (h.size + 511) / 512) ∧
    (TarHeader.mk [] 0 0 0 0 0 .Normal none).block_size = 0 ∧
    (TarHeader.mk [] 0 0 0 512 0 .Normal none).block_size = 1 ∧
    (TarHeader.mk [] 0 0 0 513 0 .Normal none).block_size = 2 ∧
    (TarHeader.mk [] 0 0 0 1024 0 .Normal none).block_size = 2 := by
  refine ⟨fun h => ?_, by decide, by decide, by decide, by decide⟩
  simp only [TarHeader.block_size, BLOCK_SIZE]
  split <;> omega

/-- Claim C4, counterexample: on a numeric field of all NUL bytes the
trimmed text is empty and `parse_octal` returns a ParseIntError of kind
`Empty`; it does not return zero. -/
theorem claim4_counterexample :
    parse_octal U32_MAX (List.replicate 8 0) = .error ParseIntError.Empty ∧
    ¬ parse_octal U32_MAX (List.replicate 8 0) = .ok 0 := by
  constructor
  · rfl
  · intro h
    cases h

/-- Claim C4, amended: for every numeric header field whose trimmed text is
empty (a field of all NUL bytes, a field whose first byte is NUL, or a field
with no NUL terminator), `parse_octal` fails with a `ParseError` of kind
`Empty` — `unwrap_or` feeds the empty string to `from_str_radix` — rather
than returning the integer zero. -/
theorem claim4_amended (maxVal : Nat) (bytes : List Nat)
    (h : trimmed_str bytes = none) :
    parse_octal maxVal bytes = .error ParseIntError.Empty := by
  unfold parse_octal
  rw [h]
  rfl

/-- Claim C4, witness: a size-style field with octal digits but no NUL
terminator trims to empty and parses as the `Empty` error. -/
theorem claim4_witness :
    parse_octal U64_MAX [48, 48] = .error ParseIntError.Empty :=
  claim4_amended U64_MAX [48, 48] (by decide)

/-- Claim C9, counterexample: `from_v7_header` is part of the public
interface, performs no checksum validation, and yields a Header from a
block whose checksum is invalid. -/
theorem claim9_counterexample :
    TarHeader.validate_checksum blockNoCk = false ∧
    (TarHeader.from_v7_header blockNoCk).isOk = true := by
  constructor
  · rfl
  · rfl

/-- Claim C9, amended: a Header produced by `from_block` always comes from
a block whose checksum validates, but the invariant does not extend to the
whole public interface: the public `from_v7_header` also produces Headers
and performs no checksum validation. -/
theorem claim9_amended (block : List Nat) (h : TarHeader)
    (hok : TarHeader.from_block block = .ok h) :
    TarHeader.validate_checksum block = true := by
  unfold TarHeader.from_block at hok
  split at hok
  · cases hok
  · rename_i hc
    simpa using hc

/-- Claim C9, witness: `from_block` accepts the well-formed block
`blockOk`, whose checksum therefore validates. -/
theorem claim9_witness : TarHeader.validate_checksum blockOk = true :=
  claim9_amended blockOk
    ⟨[97], 0, 0, 0, 0, 0, .Normal, none⟩ (by decide)

/-- `from_v7_header` only ever yields `EmptyName`, a `ParseError`, or a
decoded header. -/
lemma from_v7_header_cases (block : List Nat) :
    TarHeader.from_v7_header block = .error TarError.EmptyName ∨
    (∃ e, TarHeader.from_v7_header block = .error (TarError.ParseError e)) ∨
    (∃ h, TarHeader.from_v7_header block = .ok h) := by
  unfold TarHeader.from_v7_header
  repeat' split
  all_goals first
    | exact Or.inl rfl
    | exact Or.inr (Or.inl ⟨_, rfl⟩)
    | exact Or.inr (Or.inr ⟨_, rfl⟩)

/-- When `from_v7_header` succeeds, every one of the five numeric fields
parsed successfully. -/
lemma from_v7_header_parses (block : List Nat) (h : TarHeader)
    (hok : TarHeader.from_v7_header block = .ok h) :
    (∃ v, parse_octal U32_MAX (modeField block) = .ok v) ∧
    (∃ v, parse_octal U32_MAX (ownerField block) = .ok v) ∧
    (∃ v, parse_octal U32_MAX (groupField block) = .ok v) ∧
    (∃ v, parse_size (sizeField block) = .ok v) ∧
    (∃ v, parse_octal U64_MAX (mtimeField block) = .ok v) := by
  unfold TarHeader.from_v7_header at hok
  repeat' split at hok
  all_goals cases hok
  exact ⟨⟨_, by assumption⟩, ⟨_, by assumption⟩, ⟨_, by assumption⟩,
    ⟨_, by assumption⟩, ⟨_, by assumption⟩⟩

/-- Claim C1: `from_block` validates the checksum first and fails with
`CheckSum` when validation fails; with a valid checksum it returns exactly
`from_v7_header`, which fails with `EmptyName` when the name field decodes
to absent, and fails with `ParseError` when any of the five numeric fields
(mode, owner, group, size, mtime) has malformed octal text, even when the
checksum is valid. -/
theorem claim1_from_block (block : List Nat) :
    (TarHeader.validate_checksum block = false →
      TarHeader.from_block block = .error TarError.CheckSum) ∧
    (TarHeader.validate_checksum block = true →
      TarHeader.from_block block = TarHeader.from_v7_header block) ∧
    (trimmed_osstr (nameField block) = none →
      TarHeader.from_v7_header block = .error TarError.EmptyName) ∧
    (TarHeader.validate_checksum block = true →
      (trimmed_osstr (nameField block)).isSome = true →
      ((∃ e, parse_octal U32_MAX (modeField block) = .error e) ∨
       (∃ e, parse_octal U32_MAX (ownerField block) = .error e) ∨
       (∃ e, parse_octal U32_MAX (groupField block) = .error e) ∨
       (∃ e, parse_size (sizeField block) = .error e) ∨
       (∃ e, parse_octal U64_MAX (mtimeField block) = .error e)) →
      ∃ e, TarHeader.from_block block = .error (TarError.ParseError e)) := by
  refine ⟨fun hf => ?_, fun ht => ?_, fun hn => ?_, fun ht hn hbad => ?_⟩
  · simp [TarHeader.from_block, hf]
  · simp [TarHeader.from_block, ht]
  · unfold TarHeader.from_v7_header
    rw [hn]
  · rw [Option.isSome_iff_exists] at hn
    obtain ⟨nm, hnm⟩ := hn
    have hfb : TarHeader.from_block block = TarHeader.from_v7_header block := by
      simp [TarHeader.from_block, ht]
    rw [hfb]
    rcases from_v7_header_cases block with hcase | ⟨e, hcase⟩ | ⟨hd, hcase⟩
    · unfold TarHeader.from_v7_header at hcase
      rw [hnm] at hcase
      repeat' split at hcase
      all_goals simp_all
    · exact ⟨e, hcase⟩
    · have hp := from_v7_header_parses block hd hcase
      rcases hbad with ⟨e, he⟩ | ⟨e, he⟩ | ⟨e, he⟩ | ⟨e, he⟩ | ⟨e, he⟩
      · obtain ⟨v, hv⟩ := hp.1
        rw [he] at hv
        cases hv
      · obtain ⟨v, hv⟩ := hp.2.1
        rw [he] at hv
        cases hv
      · obtain ⟨v, hv⟩ := hp.2.2.1
        rw [he] at hv
        cases hv
      · obtain ⟨v, hv⟩ := hp.2.2.2.1
        rw [he] at hv
        cases hv
      · obtain ⟨v, hv⟩ := hp.2.2.2.2
        rw [he] at hv
        cases hv

/-- Claim C1, witness: `from_block` fails with a `ParseError` on a block
with a correct checksum, a present name, well-formed mode, owner, group and
size fields but an mtime field holding the byte `'z'`; and likewise on a
block with a correct checksum whose mode field holds `'z'`. -/
theorem claim1_witness :
    (∃ e, TarHeader.from_block blockMtimeBad = .error (TarError.ParseError e)) ∧
    (∃ e, TarHeader.from_block blockModeBad = .error (TarError.ParseError e)) :=
  ⟨(claim1_from_block blockMtimeBad).2.2.2 (by decide) (by decide)
      (Or.inr (Or.inr (Or.inr (Or.inr ⟨ParseIntError.InvalidDigit, by decide⟩)))),
   (claim1_from_block blockModeBad).2.2.2 (by decide) (by decide)
      (Or.inl ⟨ParseIntError.InvalidDigit, by decide⟩)⟩

/-- Claim C6: `validate_checksum` returns `false` (never an error) when the
checksum field fails to parse as octal, and otherwise returns `true` exactly
when the parsed value matches `compute_checksum` under the unsigned or the
signed byte interpretation. -/
theorem claim6_validate_checksum (block : List Nat) :
    (∀ e : ParseIntError,
      parse_octal_i32 (checksumField block) = .error e →
      TarHeader.validate_checksum block = false) ∧
    (TarHeader.validate_checksum block = true ↔
      ∃ n : Int, parse_octal_i32 (checksumField block) = .ok n ∧
        (n = compute_checksum unsignedInterp block ∨
         n = compute_checksum signedInterp block)) := by
  constructor
  · intro e he
    simp [TarHeader.validate_checksum, he]
  · cases hp : parse_octal_i32 (checksumField block) with
    | error e => simp [TarHeader.validate_checksum, hp]
    | ok n =>
      simp only [TarHeader.validate_checksum, hp]
      constructor
      · intro h
        refine ⟨n, rfl, ?_⟩
        by_cases hu : n = compute_checksum unsignedInterp block
        · exact Or.inl hu
        · rw [if_neg hu] at h
          exact Or.inr (by simpa using h)
      · rintro ⟨m, hm, hcase⟩
        injection hm with hnm
        subst hnm
        rcases hcase with hu | hs
        · rw [if_pos hu]
        · by_cases hu : n = compute_checksum unsignedInterp block
          · rw [if_pos hu]
          · rw [if_neg hu]
            simpa using hs

/-- Claim C6, witness: the checksum field of `blockBad` is all NUL, parses
with the `Empty` error, and `validate_checksum` returns `false`. -/
theorem claim6_witness : TarHeader.validate_checksum blockBad = false :=
  (claim6_validate_checksum blockBad).1 ParseIntError.Empty (by decide)

/-- `from_v7_header` never returns `EncodingError`. -/
lemma from_v7_header_ne_encoding (block : List Nat) :
    TarHeader.from_v7_header block ≠ .error TarError.EncodingError := by
  rcases from_v7_header_cases block with h | ⟨e, h⟩ | ⟨hd, h⟩ <;> simp [h]

/-- `from_block` never returns `EncodingError`. -/
lemma from_block_ne_encoding (block : List Nat) :
    TarHeader.from_block block ≠ .error TarError.EncodingError := by
  unfold TarHeader.from_block
  split
  · simp
  · exact from_v7_header_ne_encoding block

/-- `next_entry` never returns `EncodingError`. -/
lemma next_entry_ne_encoding (rs : ReaderState) :
    (TarReader.next_entry rs).1 ≠ .error TarError.EncodingError := by
  unfold TarReader.next_entry
  intro hc
  simp only [ne_eq] at hc
  repeat' split at hc
  all_goals simp at hc
  all_goals subst hc
  all_goals exact from_block_ne_encoding _ (by assumption)

/-- Claim C10: no public operation ever returns the `EncodingError`
variant, and a name field whose bytes before the first NUL are not valid
UTF-8 is accepted and returned verbatim as the name. -/
theorem claim10_no_encoding_error :
    (∀ block, TarHeader.from_block block ≠ .error TarError.EncodingError) ∧
    (∀ block, TarHeader.from_v7_header block ≠ .error TarError.EncodingError) ∧
    (∀ rs, (TarReader.next_entry rs).1 ≠ .error TarError.EncodingError) ∧
    (∀ (block nm : List Nat) (h : TarHeader),
      trimmed_osstr (nameField block) = some nm →
      utf8Valid nm = false →
      TarHeader.from_v7_header block = .ok h →
      h.name = nm) := by
  refine ⟨from_block_ne_encoding, from_v7_header_ne_encoding,
    next_entry_ne_encoding, fun block nm h hnm hni hok => ?_⟩
  unfold TarHeader.from_v7_header at hok
  rw [hnm] at hok
  repeat' split at hok
  all_goals cases hok
  simp_all

/-- Claim C10, witness: a name field starting with the invalid-UTF-8 byte
`0xFF` decodes to the verbatim one-byte name `[0xFF]`. -/
theorem claim10_witness :
    (⟨[255], 0, 0, 0, 0, 0, .Normal, none⟩ : TarHeader).name = [255] :=
  claim10_no_encoding_error.2.2.2 blockNameFF [255]
    ⟨[255], 0, 0, 0, 0, 0, .Normal, none⟩ (by decide) (by decide) (by decide)

/-- Reads never exceed what `validReads` allows: the total delivered is
bounded by the initial `to_read`. -/
lemma runReads_le_to_read (calls : List (Nat × Nat)) :
    ∀ s : EntryState, TarEntry.validReads s calls = true →
      (TarEntry.runReads s calls).1 ≤ s.to_read := by
  induction calls with
  | nil => intro s _; simp [TarEntry.runReads]
  | cons c rest ih =>
    intro s hv
    simp only [TarEntry.validReads, Bool.and_eq_true, decide_eq_true_eq] at hv
    obtain ⟨hle, hrest⟩ := hv
    have htail := ih _ hrest
    simp only [TarEntry.runReads, TarEntry.read] at htail ⊢
    simp only [TarEntry.readRequest] at hle
    omega

/-- Claim C2: one `read` call requests at most
`min(buffer length, bytes remaining)` from the underlying source, returns
the count the source actually delivered, and decrements both the remaining
counter and the shared skip counter by exactly that count; consequently the
total delivered for one entry never exceeds its declared size. -/
theorem claim2_entry_read :
    (∀ (s : EntryState) (bufLen : Nat),
      TarEntry.readRequest s bufLen ≤ bufLen ∧
      TarEntry.readRequest s bufLen ≤ s.to_read) ∧
    (∀ (s : EntryState) (bufLen r : Nat),
      r ≤ TarEntry.readRequest s bufLen →
      (TarEntry.read s r).1 = r ∧
      (TarEntry.read s r).2.to_read + r = s.to_read ∧
      (s.to_read ≤ s.to_advance →
        (TarEntry.read s r).2.to_advance + r = s.to_advance ∧
        (TarEntry.read s r).2.to_read ≤ (TarEntry.read s r).2.to_advance)) ∧
    (∀ (header : TarHeader) (adv : Nat) (calls : List (Nat × Nat)),
      TarEntry.validReads (TarEntry.new header adv) calls = true →
      (TarEntry.runReads (TarEntry.new header adv) calls).1 ≤ header.size) := by
  refine ⟨fun s bufLen => ⟨Nat.min_le_left _ _, Nat.min_le_right _ _⟩,
    fun s bufLen r hr => ?_, fun header adv calls hv => ?_⟩
  · simp only [TarEntry.readRequest] at hr
    refine ⟨rfl, ?_, fun hinv => ⟨?_, ?_⟩⟩ <;>
      simp only [TarEntry.read] <;> omega
  · exact runReads_le_to_read calls (TarEntry.new header adv) hv

/-- Claim C2, witness: an entry of size 5 served by two short reads (2 of a
requested 3, then 3 of a requested 3) delivers 5 bytes in total, within the
declared size. -/
theorem claim2_witness :
    (TarEntry.runReads
      (TarEntry.new ⟨[97], 0, 0, 0, 5, 0, .Normal, none⟩ 512)
      [(3, 2), (10, 3)]).1 ≤ 5 :=
  claim2_entry_read.2.2 ⟨[97], 0, 0, 0, 5, 0, .Normal, none⟩ 512
    [(3, 2), (10, 3)] (by decide)

/-- `readUpTo` does not change the underlying data. -/
lemma readUpTo_data (s : ByteStream) (n : Nat) :
    (s.readUpTo n).2.2.data = s.data := rfl

/-- `readUpTo` never moves the position backwards. -/
lemma readUpTo_pos_ge (s : ByteStream) (n : Nat) :
    s.pos ≤ (s.readUpTo n).2.2.pos := by
  simp [ByteStream.readUpTo]

/-- The count returned by `readUpTo` is the lesser of the request and the
bytes available at the position. -/
lemma readUpTo_count (s : ByteStream) (n : Nat) :
    (s.readUpTo n).2.1 = min n (s.data.length - s.pos) := by
  simp [ByteStream.readUpTo]

/-- The deferred-skip seek preserves the underlying data. -/
lemma seekedStream_data (rs : ReaderState) :
    (TarReader.seekedStream rs).data = rs.stream.data := by
  unfold TarReader.seekedStream
  split <;> rfl

/-- The deferred-skip seek never moves the position backwards. -/
lemma seekedStream_pos_ge (rs : ReaderState) :
    rs.stream.pos ≤ (TarReader.seekedStream rs).pos := by
  unfold TarReader.seekedStream
  split <;> simp [ByteStream.seekBy]

/-- The stream held by the reader after `next_entry` (on any path) is the
seeked stream advanced by the header read. -/
lemma next_entry_stream (rs : ReaderState) :
    ((TarReader.next_entry rs).2).stream =
      ((TarReader.seekedStream rs).readUpTo BLOCK_SIZE).2.2 := by
  unfold TarReader.next_entry
  simp only [ne_eq]
  repeat' split
  all_goals rfl

/-- When the header read returns fewer than 512 bytes, `next_entry` fails
with `FileEnd`. -/
lemma next_entry_short (rs : ReaderState)
    (h : ((TarReader.seekedStream rs).readUpTo BLOCK_SIZE).2.1 < BLOCK_SIZE) :
    (TarReader.next_entry rs).1 = .error TarError.FileEnd := by
  unfold TarReader.next_entry
  simp only [ne_eq]
  split
  · rfl
  · omega

/-- Claim C3: `next_entry` fails with `FileEnd` when the header read
returns fewer than 512 bytes, and when the 512-byte block read is entirely
zero; when it returns a header, the reader's skip counter has been set to
`block_size * 512` before the entry view is handed out. -/
theorem claim3_next_entry :
    (∀ rs : ReaderState,
      ((TarReader.seekedStream rs).readUpTo 512).2.1 < 512 →
      (TarReader.next_entry rs).1 = .error TarError.FileEnd) ∧
    (∀ rs : ReaderState,
      ((TarReader.seekedStream rs).readUpTo 512).2.1 = 512 →
      ((TarReader.seekedStream rs).readUpTo 512).1.all (· == 0) = true →
      (TarReader.next_entry rs).1 = .error TarError.FileEnd) ∧
    (∀ (rs : ReaderState) (h : TarHeader) (rs2 : ReaderState),
      TarReader.next_entry rs = (.ok h, rs2) →
      rs2.to_advance = h.block_size * 512) := by
  refine ⟨next_entry_short, fun rs hc hz => ?_, fun rs h rs2 heq => ?_⟩
  · unfold TarReader.next_entry
    simp only [ne_eq, BLOCK_SIZE]
    split
    · rfl
    · rfl
  · unfold TarReader.next_entry at heq
    simp only [ne_eq] at heq
    repeat' split at heq
    all_goals injection heq with h1 h2
    all_goals cases h1
    subst h2
    rfl

/-- Claim C3, witness: an empty stream makes the first read return 0 bytes
and `next_entry` fail with `FileEnd`; on an archive holding the one valid
block `blockOk` (entry size 0), `next_entry` succeeds and leaves the skip
counter at `block_size * 512 = 0`. -/
theorem claim3_witness :
    (TarReader.next_entry ⟨⟨[], 0⟩, 0⟩).1 = .error TarError.FileEnd ∧
    (⟨⟨blockOk, 512⟩, 0⟩ : ReaderState).to_advance =
      (⟨[97], 0, 0, 0, 0, 0, .Normal, none⟩ : TarHeader).block_size * 512 :=
  ⟨claim3_next_entry.1 ⟨⟨[], 0⟩, 0⟩ (by decide),
   claim3_next_entry.2.2 ⟨⟨blockOk, 0⟩, 0⟩
     ⟨[97], 0, 0, 0, 0, 0, .Normal, none⟩ ⟨⟨blockOk, 512⟩, 0⟩ (by decide)⟩

/-- Claim C8, counterexample: on the archive `blockOk ++ blockBad ++
blockOk`, the second `next_entry` call fails with the header-decode error
`CheckSum`, yet the third call on the same reader succeeds — the reader is
not terminal after a header-decode failure.  Likewise, on an all-zero
block followed by `blockOk`, the first call fails with `FileEnd`, yet the
second call succeeds — the reader is not terminal after an
all-zero-block `FileEnd` either. -/
theorem claim8_counterexample :
    ((TarReader.iterNext ⟨⟨archiveCorruptMiddle, 0⟩, 0⟩ 1).1 =
        .error TarError.CheckSum ∧
      ((TarReader.iterNext ⟨⟨archiveCorruptMiddle, 0⟩, 0⟩ 2).1).isOk = true) ∧
    ((TarReader.next_entry ⟨⟨archiveZeroThenOk, 0⟩, 0⟩).1 =
        .error TarError.FileEnd ∧
      ((TarReader.iterNext ⟨⟨archiveZeroThenOk, 0⟩, 0⟩ 1).1).isOk = true) := by
  refine ⟨⟨?_, ?_⟩, ⟨?_, ?_⟩⟩ <;> rfl

/-- Claim C8, amended: after a `next_entry` call that fails with `FileEnd`
because fewer than 512 bytes remain past the seek position (truncation or
exhaustion), every subsequent `next_entry` call on the same reader also
fails with `FileEnd`; but after a header-decode error (`CheckSum`,
`EmptyName`, or `ParseError`), or after a `FileEnd` caused by an all-zero
block, the reader is not terminal: the skip counter is left unchanged, the
stream stays usable, and a subsequent call can succeed on later bytes of
the stream (the counterexample exhibits both non-terminal cases). -/
theorem claim8_amended (rs : ReaderState)
    (h : rs.stream.data.length < (TarReader.seekedStream rs).pos + 512) :
    ∀ n, (TarReader.iterNext rs n).1 = .error TarError.FileEnd := by
  intro n
  induction n generalizing rs with
  | zero =>
    apply next_entry_short
    rw [readUpTo_count, seekedStream_data]
    simp only [BLOCK_SIZE]
    omega
  | succ n ih =>
    show (TarReader.iterNext (TarReader.next_entry rs).2 n).1 = _
    apply ih
    have hdata : ((TarReader.next_entry rs).2).stream.data.length =
        rs.stream.data.length := by
      rw [next_entry_stream, readUpTo_data, seekedStream_data]
    have hpos1 : (TarReader.seekedStream rs).pos ≤
        ((TarReader.next_entry rs).2).stream.pos := by
      rw [next_entry_stream]
      exact readUpTo_pos_ge _ _
    have hpos2 := seekedStream_pos_ge (TarReader.next_entry rs).2
    omega

/-- Claim C8, witness: on an empty stream the first, second and third
`next_entry` calls all fail with `FileEnd`. -/
theorem claim8_witness :
    (TarReader.iterNext ⟨⟨[], 0⟩, 0⟩ 2).1 = .error TarError.FileEnd :=
  claim8_amended ⟨⟨[], 0⟩, 0⟩ (by decide) 2

/-- Every base-8 digit value produced by `natToOctDigitsAux` is below 8. -/
lemma natToOctDigitsAux_lt (fuel : Nat) :
    ∀ n, ∀ d ∈ natToOctDigitsAux fuel n, d < 8 := by
  induction fuel with
  | zero =>
    intro n d hd
    simp only [natToOctDigitsAux, List.mem_singleton] at hd
    omega
  | succ fuel ih =>
    intro n d hd
    simp only [natToOctDigitsAux] at hd
    split at hd
    · simp only [List.mem_singleton] at hd
      omega
    · rw [List.mem_append, List.mem_singleton] at hd
      rcases hd with hd | hd
      · exact ih _ d hd
      · omega

/-- `natToOctDigitsAux` always yields at least one digit. -/
lemma natToOctDigitsAux_ne_nil (fuel n : Nat) :
    natToOctDigitsAux fuel n ≠ [] := by
  cases fuel with
  | zero => simp [natToOctDigitsAux]
  | succ fuel =>
    simp only [natToOctDigitsAux]
    split
    · simp
    · simp

/-- Folding a final digit multiplies the prefix value by 8 and adds it. -/
lemma ofOctFrom_append (acc : Nat) (digs : List Nat) (d : Nat) :
    ofOctFrom acc (digs ++ [d]) = ofOctFrom acc digs * 8 + d := by
  simp [ofOctFrom, List.foldl_append]

/-- With enough fuel, the digit values of `n` fold back to `n`. -/
lemma natToOctDigitsAux_val (fuel : Nat) :
    ∀ n, n ≤ fuel → ofOctFrom 0 (natToOctDigitsAux fuel n) = n := by
  induction fuel with
  | zero =>
    intro n hn
    have : n = 0 := by omega
    subst this
    simp [natToOctDigitsAux, ofOctFrom]
  | succ fuel ih =>
    intro n hn
    simp only [natToOctDigitsAux]
    split
    · simp [ofOctFrom]
    · rw [ofOctFrom_append, ih (n / 8) (by omega)]
      omega

/-- The fold value never drops below its accumulator. -/
lemma ofOctFrom_mono (digs : List Nat) : ∀ acc, acc ≤ ofOctFrom acc digs := by
  induction digs with
  | nil => intro acc; simp [ofOctFrom]
  | cons d ds ih =>
    intro acc
    have h := ih (acc * 8 + d)
    simp only [ofOctFrom, List.foldl_cons] at h ⊢
    omega

/-- The fold value is bounded by the digit count. -/
lemma ofOctFrom_lt (digs : List Nat) :
    ∀ acc, (∀ d ∈ digs, d < 8) →
      ofOctFrom acc digs < (acc + 1) * 8 ^ digs.length := by
  induction digs with
  | nil => intro acc _; simp [ofOctFrom]
  | cons d ds ih =>
    intro acc hd
    have h1 := ih (acc * 8 + d) (fun x hx => hd x (List.mem_cons_of_mem _ hx))
    have hd8 : d < 8 := hd d (List.mem_cons_self _ _)
    have h2 : (acc * 8 + d + 1) * 8 ^ ds.length ≤ (acc + 1) * (8 ^ ds.length * 8) := by
      have h3 : acc * 8 + d + 1 ≤ (acc + 1) * 8 := by omega
      calc (acc * 8 + d + 1) * 8 ^ ds.length
          ≤ (acc + 1) * 8 * 8 ^ ds.length := Nat.mul_le_mul_right _ h3
        _ = (acc + 1) * (8 ^ ds.length * 8) := by ring
    simp only [ofOctFrom, List.foldl_cons] at h1 ⊢
    simp only [List.length_cons, pow_succ]
    omega

/-- Pure-ASCII byte sequences are valid UTF-8. -/
lemma utf8Valid_of_ascii (l : List Nat) (h : ∀ b ∈ l, b < 128) :
    utf8Valid l = true := by
  induction l with
  | nil => rfl
  | cons b rest ih =>
    have hb : b < 128 := h b (List.mem_cons_self _ _)
    have ih2 := ih (fun x hx => h x (List.mem_cons_of_mem _ hx))
    unfold utf8Valid at ih2 ⊢
    simp only [utf8ValidFrom]
    rw [if_pos hb]
    exact ih2

/-- The first NUL of a NUL-free prefix followed by a NUL sits exactly at
the prefix's length. -/
lemma findIdx?_nul (digs rest : List Nat) (hd : ∀ d ∈ digs, d ≠ 0) :
    ∀ i, List.findIdx? (· == 0) (digs ++ 0 :: rest) i = some (digs.length + i) := by
  induction digs with
  | nil => intro i; simp [List.findIdx?_cons]
  | cons d ds ih =>
    intro i
    have hd0 : ¬((d == 0) = true) := by
      simp only [beq_iff_eq]
      exact hd d (List.mem_cons_self _ _)
    rw [List.cons_append, List.findIdx?_cons, if_neg hd0,
      ih (fun x hx => hd x (List.mem_cons_of_mem _ hx)) (i + 1)]
    simp only [List.length_cons]
    congr 1
    omega

/-- `trimmed_str` of NUL-terminated octal digit text returns the digit
bytes. -/
lemma trimmed_str_digits (digs rest : List Nat) (hne : digs ≠ [])
    (hd : ∀ d ∈ digs, 48 ≤ d ∧ d < 56) :
    trimmed_str (digs ++ 0 :: rest) = some digs := by
  have hnz : ∀ d ∈ digs, d ≠ 0 := fun d hdm => by have := hd d hdm; omega
  have hascii : ∀ b ∈ digs, b < 128 := fun b hb => by have := hd b hb; omega
  unfold trimmed_str
  rw [if_neg (by simp)]
  rw [findIdx?_nul digs rest hnz 0]
  cases digs with
  | nil => exact absurd rfl hne
  | cons d ds =>
    simp only [List.length_cons, Nat.add_zero]
    rw [List.cons_append, List.take_succ_cons]
    have htake : List.take ds.length (ds ++ 0 :: rest) = ds :=
      List.take_left ds (0 :: rest)
    rw [htake, if_pos (utf8Valid_of_ascii _ hascii)]

/-- An octal-digit byte decodes to its digit value. -/
lemma octDigit?_digit (d : Nat) (hd : d < 8) : octDigit? (d + 48) = some d := by
  unfold octDigit?
  rw [if_pos (by omega : 48 ≤ d + 48 ∧ d + 48 < 56)]
  all_goals congr 1

/-- Positive octal accumulation over digit bytes computes the fold value
when it stays within the bound. -/
lemma accumOctPos_digits (maxVal : Int) (digs : List Nat) :
    ∀ acc : Nat, (∀ d ∈ digs, d < 8) →
      ((ofOctFrom acc digs : Nat) : Int) ≤ maxVal →
      accumOctPos maxVal (acc : Int) (digs.map (fun d => d + 48)) =
        .ok ((ofOctFrom acc digs : Nat) : Int) := by
  induction digs with
  | nil =>
    intro acc _ _
    simp [accumOctPos, ofOctFrom]
  | cons d ds ih =>
    intro acc hd hb
    have hd8 : d < 8 := hd d (List.mem_cons_self _ _)
    have hfold : ofOctFrom acc (d :: ds) = ofOctFrom (acc * 8 + d) ds := rfl
    rw [hfold] at hb ⊢
    have hmono := ofOctFrom_mono ds (acc * 8 + d)
    have hnotlt : ¬(maxVal < (acc : Int) * 8 + (d : Int)) := by
      have hcast : ((acc * 8 + d : Nat) : Int) ≤ maxVal := by
        calc ((acc * 8 + d : Nat) : Int) ≤ ((ofOctFrom (acc * 8 + d) ds : Nat) : Int) := by
              exact_mod_cast hmono
          _ ≤ maxVal := hb
      push_cast at hcast
      omega
    simp only [List.map_cons, accumOctPos, octDigit?_digit d hd8]
    rw [if_neg hnotlt]
    have hcast2 : (acc : Int) * 8 + (d : Int) = ((acc * 8 + d : Nat) : Int) := by
      push_cast
      ring
    rw [hcast2]
    exact ih (acc * 8 + d) (fun x hx => hd x (List.mem_cons_of_mem _ hx)) hb

/-- `from_str_radix` at a signed type maps NUL-free octal digit text to its
fold value when it stays within the bound. -/
lemma fromStrRadixOctI_digits (minVal maxVal : Int) (digs : List Nat)
    (hne : digs ≠ []) (hd : ∀ d ∈ digs, d < 8)
    (hb : ((ofOctFrom 0 digs : Nat) : Int) ≤ maxVal) :
    fromStrRadixOctI minVal maxVal (digs.map (fun d => d + 48)) =
      .ok ((ofOctFrom 0 digs : Nat) : Int) := by
  obtain ⟨d0, ds, rfl⟩ : ∃ d0 ds, digs = d0 :: ds := by
    cases digs with
    | nil => exact absurd rfl hne
    | cons a b => exact ⟨a, b, rfl⟩
  simp only [List.map_cons, fromStrRadixOctI]
  rw [if_neg (by omega : ¬(d0 + 48 = 43 ∨ d0 + 48 = 45))]
  have happ := accumOctPos_digits maxVal (d0 :: ds) 0 hd hb
  simp only [List.map_cons, Nat.cast_zero] at happ
  exact happ

/-- `compute_checksum` splits into the sum before the checksum field, the
8 masked spaces, and the sum after it. -/
lemma compute_checksum_split (interp : Nat → Int) (block : List Nat) :
    compute_checksum interp block =
      ((block.take 148).map interp).sum + 32 * 8 +
        ((block.drop 156).map interp).sum := by
  have h2 : checksumField block ++ block.drop 156 = block.drop 148 := by
    unfold checksumField
    exact List.drop_take_append_drop block 148 8
  have hsum : (block.map interp).sum =
      ((block.take 148).map interp).sum +
        (((checksumField block).map interp).sum +
          ((block.drop 156).map interp).sum) := by
    conv_lhs => rw [(List.take_append_drop 148 block).symm]
    rw [List.map_append, List.sum_append, ← h2, List.map_append, List.sum_append]
  unfold compute_checksum
  rw [hsum]
  ring

/-- The unsigned checksum of any block is nonnegative. -/
lemma compute_checksum_unsigned_nonneg (block : List Nat) :
    0 ≤ compute_checksum unsignedInterp block := by
  rw [compute_checksum_split]
  have h1 : 0 ≤ ((block.take 148).map unsignedInterp).sum := by
    apply List.sum_nonneg
    intro x hx
    rw [List.mem_map] at hx
    obtain ⟨b, _, rfl⟩ := hx
    exact Int.natCast_nonneg b
  have h2 : 0 ≤ ((block.drop 156).map unsignedInterp).sum := by
    apply List.sum_nonneg
    intro x hx
    rw [List.mem_map] at hx
    obtain ⟨b, _, rfl⟩ := hx
    exact Int.natCast_nonneg b
  omega

/-- Claim C5: `compute_checksum` equals the sum of all 512 byte values
with the 8 checksum-field bytes excluded and replaced by 8 times the ASCII
space value 32; and any 512-byte block whose checksum field holds that very
sum as NUL-terminated octal text passes `validate_checksum`. -/
theorem claim5_checksum :
    (∀ (interp : Nat → Int) (block : List Nat),
      compute_checksum interp block =
        ((block.take 148).map interp).sum + 32 * 8 +
          ((block.drop 156).map interp).sum) ∧
    (∀ (block rest : List Nat),
      block.length = 512 →
      checksumField block =
        octalEncode (compute_checksum unsignedInterp block).toNat ++ 0 :: rest →
      TarHeader.validate_checksum block = true) := by
  refine ⟨compute_checksum_split, fun block rest hlen hf => ?_⟩
  have hs0 : 0 ≤ compute_checksum unsignedInterp block :=
    compute_checksum_unsigned_nonneg block
  set s : Int := compute_checksum unsignedInterp block with hs
  set digs : List Nat := natToOctDigits s.toNat with hdigs
  have hd8 : ∀ d ∈ digs, d < 8 := natToOctDigitsAux_lt _ _
  have hne : digs ≠ [] := natToOctDigitsAux_ne_nil _ _
  have hval : ofOctFrom 0 digs = s.toNat := natToOctDigitsAux_val _ _ (Nat.le_refl _)
  have henc : octalEncode s.toNat = digs.map (fun d => d + 48) := rfl
  have hflen : (checksumField block).length = 8 := by
    unfold checksumField
    simp [hlen]
  have hdlen : digs.length ≤ 7 := by
    have hlenf := congrArg List.length hf
    rw [hflen] at hlenf
    simp only [henc, List.length_append, List.length_map, List.length_cons] at hlenf
    omega
  have hlt : s.toNat < 8 ^ 7 := by
    have h1 := ofOctFrom_lt digs 0 hd8
    rw [hval] at h1
    have h2 : (8 : Nat) ^ digs.length ≤ 8 ^ 7 :=
      Nat.pow_le_pow_right (by omega) hdlen
    omega
  have hdb : ∀ d ∈ octalEncode s.toNat, 48 ≤ d ∧ d < 56 := by
    intro d hdm
    rw [henc, List.mem_map] at hdm
    obtain ⟨x, hx, rfl⟩ := hdm
    have := hd8 x hx
    omega
  have htr : trimmed_str (checksumField block) = some (octalEncode s.toNat) := by
    rw [hf]
    exact trimmed_str_digits _ _ (by rw [henc]; simpa using hne) hdb
  have hbound : ((ofOctFrom 0 digs : Nat) : Int) ≤ I32_MAX := by
    rw [hval]
    have : (s.toNat : Int) < ((8 ^ 7 : Nat) : Int) := by exact_mod_cast hlt
    unfold I32_MAX
    omega
  have hparse : parse_octal_i32 (checksumField block) = .ok s := by
    unfold parse_octal_i32
    rw [htr]
    simp only [Option.getD_some, henc]
    rw [fromStrRadixOctI_digits I32_MIN I32_MAX digs hne hd8 hbound,
      hval, Int.toNat_of_nonneg hs0]
  simp only [TarHeader.validate_checksum, hparse]
  simp

/-- Claim C5, witness: the block `blockOkB` has unsigned checksum 642 and
carries `"1202"` NUL-padded in its checksum field, so `validate_checksum`
accepts it. -/
theorem claim5_witness : TarHeader.validate_checksum blockOkB = true :=
  claim5_checksum.2 blockOkB [0, 0, 0] (by decide) (by decide)

end RsTar
